import Mathlib

/-!
Shallow embedding of the fuzzy prompt deduplication engine of this
repository (`src/dedup/mod.rs`): `FuzzyDeduper::normalize`,
`FuzzyDeduper::is_similar` and `FuzzyDeduper::cluster`, together with the
one function of the `strsim` crate the module calls
(`strsim::normalized_levenshtein`).

Modelling conventions:
* a Rust string is a list of Unicode characters (`List Char`);
  `str::len` (the UTF-8 byte count) is `utf8Len`, `str::chars().count()`
  (used by `strsim`) is `List.length`;
* `f64` arithmetic is modelled by exact rational arithmetic (`ℚ`): every
  quantity the code compares is an exact small rational, so the
  comparisons the claims are about are not affected by rounding.
  Rationals built by the embedding are written with `Rat.divInt` so that
  they evaluate inside the kernel; the lemmas `lenRatio_def` and
  `normalizedLev_def` restate them as the literal quotient formulas of
  the source;
* `char::to_lowercase` and `char::is_whitespace` are modelled on the
  ASCII range (`lowerChar` is the identity beyond ASCII, which agrees
  with Rust on every lowercase and non-cased character, in particular on
  every input appearing in the development);
* the `HashMap` of `cluster` is modelled by an association list of
  `(text, count)` pairs.  Rust's `HashMap` iteration order is
  unspecified (randomly seeded per map), so the theorems quantify over
  every enumeration `items` that is valid for the given input
  (`validItems`); `countsList` is the particular enumeration listing
  keys in first-seen order.
-/

namespace Ccql

/-- Strings as lists of Unicode scalar values. -/
abbrev Str := List Char

/-- Convenience conversion from Lean string literals. -/
def str (s : String) : Str := s.data

/-- Rust `str::len`: the length of the UTF-8 encoding in bytes. -/
def utf8Len (s : Str) : Nat := (s.map Char.utf8Size).sum

/-- Rust `char::to_lowercase`, restricted to the ASCII range (identity
elsewhere). -/
def lowerChar : Char → Char
  | 'A' => 'a'
  | 'B' => 'b'
  | 'C' => 'c'
  | 'D' => 'd'
  | 'E' => 'e'
  | 'F' => 'f'
  | 'G' => 'g'
  | 'H' => 'h'
  | 'I' => 'i'
  | 'J' => 'j'
  | 'K' => 'k'
  | 'L' => 'l'
  | 'M' => 'm'
  | 'N' => 'n'
  | 'O' => 'o'
  | 'P' => 'p'
  | 'Q' => 'q'
  | 'R' => 'r'
  | 'S' => 's'
  | 'T' => 't'
  | 'U' => 'u'
  | 'V' => 'v'
  | 'W' => 'w'
  | 'X' => 'x'
  | 'Y' => 'y'
  | 'Z' => 'z'
  | c => c

/-- Rust `str::to_lowercase` (ASCII fragment). -/
def lower (s : Str) : Str := s.map lowerChar

/-- Rust `str::trim`: drop leading and trailing whitespace. -/
def trim (s : Str) : Str :=
  ((s.dropWhile Char.isWhitespace).reverse.dropWhile Char.isWhitespace).reverse

/-- Rust `str::contains(pat)` for a string pattern: substring test. -/
def containsSub (s pat : Str) : Bool := decide (pat <:+: s)

/-- Rust `str::starts_with(pat)`. -/
def startsWithStr (s pat : Str) : Bool := decide (pat <+: s)

/-- `FuzzyDeduper::normalize`, the noise test on the trimmed, lower-cased
text: the `||`-chain of `contains`/`starts_with` checks of the source, in
source order.  (`starts_with('[')` etc. are the one-character prefix
tests; the curly brace is written `'\x7b'`.) -/
def noisy (s : Str) : Bool :=
  containsSub s (str "import ") || containsSub s (str "export ") ||
  containsSub s (str "const ") || containsSub s (str "function ") ||
  containsSub s (str "interface ") ||
  startsWithStr s (str "//") || startsWithStr s (str "/*") ||
  startsWithStr s (str "```") ||
  containsSub s (str ".js:") || containsSub s (str ".ts:") ||
  containsSub s (str ".tsx:") ||
  containsSub s (str "chunk-") ||
  containsSub s (str "requestanimationframe") ||
  containsSub s (str "installhook") ||
  startsWithStr s ['['] || startsWithStr s ['\x7b'] || startsWithStr s ['<']

/-- `FuzzyDeduper::normalize`: trim, lower-case, and return the empty
sentinel on noise. -/
def normalize (s : Str) : Str :=
  let t := lower (trim s)
  if noisy t then [] else t

/-- The keep condition of `FuzzyDeduper::cluster`:
`!normalized.is_empty() && normalized.len() > 3`. -/
def kept (t : Str) : Bool := !t.isEmpty && decide (3 < utf8Len t)

/-- `strsim::levenshtein`: unit-cost edit distance over characters. -/
def levDist (a b : Str) : Nat := levenshtein Levenshtein.defaultCost a b

/-- `strsim::normalized_levenshtein`:
`1` when both strings are empty, otherwise
`1 - levenshtein(a, b) / max(a.chars().count(), b.chars().count())`
(here written as the single quotient `(L - d) / L`; see
`normalizedLev_def`). -/
def normalizedLev (a b : Str) : ℚ :=
  if a = [] ∧ b = [] then 1
  else
    Rat.divInt ((max a.length b.length : Int) - (levDist a b : Int))
      (max a.length b.length : Int)

/-- The length-ratio prefilter quantity of `FuzzyDeduper::is_similar`:
`a.len().min(b.len()) as f64 / a.len().max(b.len()) as f64`
(see `lenRatio_def`). -/
def lenRatio (a b : Str) : ℚ :=
  Rat.divInt (min (utf8Len a) (utf8Len b) : Int) (max (utf8Len a) (utf8Len b) : Int)

/-- `FuzzyDeduper::is_similar`: exact match fast path, length-ratio
prefilter at `0.5`, then `normalized_levenshtein >= threshold`. -/
def isSimilar (thr : ℚ) (a b : Str) : Bool :=
  if a = b then true
  else if lenRatio a b < Rat.divInt 1 2 then false
  else decide (normalizedLev a b ≥ thr)

/-- The output record of the engine (`PromptCluster` in the source). -/
structure PromptCluster where
  canonical : Str
  variants : List Str
  count : Nat
deriving DecidableEq

/-- One iteration of the assignment loop of `FuzzyDeduper::cluster`: scan
the clusters in order, put `(t, k)` into the first cluster whose
canonical is similar to `t` (append `t` to its variants, add `k` to its
count), or append a fresh singleton cluster at the end. -/
def insertPrompt (thr : ℚ) (t : Str) (k : Nat) : List PromptCluster → List PromptCluster
  | [] => [{ canonical := t, variants := [t], count := k }]
  | c :: cs =>
    if isSimilar thr t c.canonical then
      { c with variants := c.variants ++ [t], count := c.count + k } :: cs
    else
      c :: insertPrompt thr t k cs

/-- The comparator `|a, b| b.1.cmp(&a.1)` on `(text, count)` pairs:
sort by count descending. -/
def itemLe (p q : Str × Nat) : Bool := decide (q.2 ≤ p.2)

/-- `items.sort_by(|a, b| b.1.cmp(&a.1))`: stable sort by count
descending. -/
def sortItems (items : List (Str × Nat)) : List (Str × Nat) :=
  items.mergeSort itemLe

/-- The assignment loop of `FuzzyDeduper::cluster` over the ranked pairs,
starting from no clusters. -/
def assignAll (thr : ℚ) (items : List (Str × Nat)) : List PromptCluster :=
  items.foldl (fun cs p => insertPrompt thr p.1 p.2 cs) []

/-- The comparator `|a, b| b.count.cmp(&a.count)` on clusters. -/
def clusterLe (a b : PromptCluster) : Bool := decide (b.count ≤ a.count)

/-- `clusters.sort_by(|a, b| b.count.cmp(&a.count))`: stable sort of the
final clusters by count descending. -/
def sortClusters (cs : List PromptCluster) : List PromptCluster :=
  cs.mergeSort clusterLe

/-- `FuzzyDeduper::cluster` after the occurrence-counting stage: rank the
`(text, count)` pairs by count descending, assign greedily, sort the
clusters by count descending. -/
def clusterFrom (thr : ℚ) (items : List (Str × Nat)) : List PromptCluster :=
  sortClusters (assignAll thr (sortItems items))

/-- The occurrence count a text receives in the counting loop of
`cluster`: the number of input prompts whose normalization is `t`. -/
def occ (prompts : List Str) (t : Str) : Nat := (prompts.map normalize).count t

/-- The non-discarded normalized texts of the input, with multiplicity. -/
def keptTexts (prompts : List Str) : List Str :=
  (prompts.map normalize).filter kept

/-- `items` is a possible enumeration of the `HashMap` built by the
counting loop of `cluster` on `prompts`: its keys are exactly the
distinct kept normalized texts (in some order), and each key carries its
occurrence count. -/
def validItems (prompts : List Str) (items : List (Str × Nat)) : Prop :=
  (items.map Prod.fst).Perm (keptTexts prompts).dedup ∧
    ∀ p ∈ items, p.2 = occ prompts p.1

instance instDecidableValidItems (prompts : List Str) (items : List (Str × Nat)) :
    Decidable (validItems prompts items) :=
  inferInstanceAs (Decidable (_ ∧ _))

/-- The enumeration of the occurrence map that lists keys in first-seen
order (one concrete possibility for the `HashMap` iteration order). -/
def countsList (prompts : List Str) : List (Str × Nat) :=
  (keptTexts prompts).dedup.map (fun t => (t, occ prompts t))

/-- One concrete run of `FuzzyDeduper::cluster` (with the first-seen
enumeration of the occurrence map). -/
def cluster (thr : ℚ) (prompts : List Str) : List PromptCluster :=
  clusterFrom thr (countsList prompts)

/-- The default similarity threshold `0.8` of
`impl Default for FuzzyDeduper`. -/
def defaultThreshold : ℚ := Rat.divInt 4 5

/-- The substring noise markers of `normalize`, as data. -/
def subMarkers : List Str :=
  [str "import ", str "export ", str "const ", str "function ",
   str "interface ", str ".js:", str ".ts:", str ".tsx:", str "chunk-",
   str "requestanimationframe", str "installhook"]

/-- The prefix noise markers of `normalize`, as data. -/
def preMarkers : List Str :=
  [str "//", str "/*", str "```", ['['], ['\x7b'], ['<']]

/-- The noise condition as the specification states it: the text contains
one of the substring markers or starts with one of the prefix markers. -/
def noiseMatch (t : Str) : Prop :=
  (∃ m ∈ subMarkers, m <:+: t) ∨ (∃ m ∈ preMarkers, m <+: t)

instance instDecidableNoiseMatch (t : Str) : Decidable (noiseMatch t) :=
  inferInstanceAs (Decidable (_ ∨ _))

/-- The scenario input of the specification (claim C1). -/
def scenarioPrompts : List Str :=
  [str "continue", str "continue", str "cotninue", str "contnue",
   str "fix it", str "fix this"]

/-- The two-prompt input whose two occurrence pairs carry equal counts
(claim C2). -/
def tiePrompts : List Str := [str "fix it", str "fix this"]

/-- The all-filtered input of claim C8. -/
def shortPrompts : List Str := [str "ab", str "import x", str ""]

/-- A non-ASCII prompt: two characters, four UTF-8 bytes. -/
def accentText : Str := str "éé"

/-- The noisy input of claim C7 containing single quotes (written via the
escaped character literal). -/
def importInput : Str := str "import foo from " ++ ['\x27'] ++ str "bar" ++ ['\x27']

/-- The occurrence pairs of `scenarioPrompts` in first-seen key order
(one valid enumeration of the occurrence map). -/
def scenarioItems : List (Str × Nat) :=
  [(str "continue", 2), (str "cotninue", 1), (str "contnue", 1),
   (str "fix it", 1), (str "fix this", 1)]

/-- The occurrence pairs of `tiePrompts` in first-seen key order. -/
def tieItemsA : List (Str × Nat) := [(str "fix it", 1), (str "fix this", 1)]

/-- The occurrence pairs of `tiePrompts` in the opposite key order (also a
valid enumeration of the occurrence map). -/
def tieItemsB : List (Str × Nat) := [(str "fix this", 1), (str "fix it", 1)]

/-- The cluster formed around `"continue"` on the scenario input. -/
def contCluster : PromptCluster :=
  { canonical := str "continue", variants := [str "continue", str "contnue"], count := 3 }

/-- The singleton cluster of `"cotninue"` on the scenario input. -/
def cotnCluster : PromptCluster :=
  { canonical := str "cotninue", variants := [str "cotninue"], count := 1 }

/-- The singleton cluster of `"fix it"`. -/
def fixItCluster : PromptCluster :=
  { canonical := str "fix it", variants := [str "fix it"], count := 1 }

/-- The singleton cluster of `"fix this"`. -/
def fixThisCluster : PromptCluster :=
  { canonical := str "fix this", variants := [str "fix this"], count := 1 }

/-! ### Basic lemmas about the embedding -/

/-- The length-ratio quantity is the literal quotient of the source. -/
theorem lenRatio_def (a b : Str) :
    lenRatio a b = (min (utf8Len a) (utf8Len b) : ℚ) / (max (utf8Len a) (utf8Len b) : ℚ) := by
  rw [lenRatio, Rat.divInt_eq_div]
  push_cast
  rfl

theorem max_length_pos {a b : Str} (h : ¬(a = [] ∧ b = [])) :
    0 < max a.length b.length := by
  rcases Decidable.em (a = []) with ha | ha
  · rcases Decidable.em (b = []) with hb | hb
    · exact absurd ⟨ha, hb⟩ h
    · have := List.length_pos.mpr hb
      omega
  · have := List.length_pos.mpr ha
    omega

/-- The normalized similarity is the literal formula of
`strsim::normalized_levenshtein`. -/
theorem normalizedLev_def (a b : Str) (h : ¬(a = [] ∧ b = [])) :
    normalizedLev a b = 1 - (levDist a b : ℚ) / (max a.length b.length : ℚ) := by
  have hL : (0 : ℚ) < (max a.length b.length : ℚ) := by
    exact_mod_cast max_length_pos h
  rw [normalizedLev, if_neg h, Rat.divInt_eq_div]
  push_cast
  rw [sub_div, div_self (ne_of_gt hL)]

/-- The noise test of the source is exactly the marker-table condition of
the specification. -/
theorem noisy_iff (t : Str) : noisy t = true ↔ noiseMatch t := by
  simp only [noisy, noiseMatch, subMarkers, preMarkers, containsSub, startsWithStr,
    Bool.or_eq_true, decide_eq_true_eq, List.mem_cons, List.not_mem_nil, or_false,
    exists_eq_or_imp, exists_eq_left]
  tauto

/-- ASCII lower-casing does not change whitespace status. -/
theorem isWhitespace_lowerChar (c : Char) :
    (lowerChar c).isWhitespace = c.isWhitespace := by
  unfold lowerChar
  split <;> rfl

theorem lowerChar_eq_self_of_not_upper (d : Char)
    (h : d ∉ (['A', 'B', 'C', 'D', 'E', 'F', 'G', 'H', 'I', 'J', 'K', 'L', 'M',
      'N', 'O', 'P', 'Q', 'R', 'S', 'T', 'U', 'V', 'W', 'X', 'Y', 'Z'] : List Char)) :
    lowerChar d = d := by
  unfold lowerChar
  split <;> simp_all

theorem lowerChar_not_upper (c : Char) :
    lowerChar c ∉ (['A', 'B', 'C', 'D', 'E', 'F', 'G', 'H', 'I', 'J', 'K', 'L', 'M',
      'N', 'O', 'P', 'Q', 'R', 'S', 'T', 'U', 'V', 'W', 'X', 'Y', 'Z'] : List Char) := by
  unfold lowerChar
  split <;> first | decide | simp_all

theorem lowerChar_idem (c : Char) : lowerChar (lowerChar c) = lowerChar c :=
  lowerChar_eq_self_of_not_upper _ (lowerChar_not_upper c)

theorem lower_idem (s : Str) : lower (lower s) = lower s := by
  simp only [lower, List.map_map]
  exact List.map_congr_left fun c _ => lowerChar_idem c

/-- Pointwise form of `isWhitespace_lowerChar`. -/
theorem ws_comp_lowerChar : (Char.isWhitespace ∘ lowerChar) = Char.isWhitespace :=
  funext isWhitespace_lowerChar

/-- Lower-casing commutes with dropping leading whitespace. -/
theorem dropWhile_ws_lower (s : Str) :
    (lower s).dropWhile Char.isWhitespace = lower (s.dropWhile Char.isWhitespace) := by
  simp only [lower, List.dropWhile_map, ws_comp_lowerChar]

/-- Lower-casing commutes with trimming. -/
theorem trim_lower (s : Str) : trim (lower s) = lower (trim s) := by
  simp only [trim, dropWhile_ws_lower, lower, ← List.map_reverse, List.dropWhile_map,
    ws_comp_lowerChar]

/-- `trim` written with Mathlib primitives. -/
theorem trim_eq (s : Str) :
    trim s = List.rdropWhile Char.isWhitespace (s.dropWhile Char.isWhitespace) := rfl

/-- A prefix of a `dropWhile` output is unchanged by another `dropWhile`. -/
theorem dropWhile_eq_self_of_prefix_dropWhile (p : Char → Bool) (l : Str) (X : Str)
    (hpre : X <+: l.dropWhile p) : X.dropWhile p = X := by
  match hXv : X with
  | [] => simp
  | x :: xs =>
    obtain ⟨u, hu⟩ := hpre
    have hne : l.dropWhile p ≠ [] := by
      rw [← hu]
      simp
    have hnp := List.head_dropWhile_not p l hne
    simp only [← hu, List.cons_append, List.head_cons] at hnp
    rw [List.dropWhile_cons_of_neg]
    simp [hnp]

/-- Trimming is idempotent. -/
theorem trim_idem (s : Str) : trim (trim s) = trim s := by
  rw [trim_eq, trim_eq]
  have h1 : (List.rdropWhile Char.isWhitespace
      (s.dropWhile Char.isWhitespace)).dropWhile Char.isWhitespace =
      List.rdropWhile Char.isWhitespace (s.dropWhile Char.isWhitespace) :=
    dropWhile_eq_self_of_prefix_dropWhile Char.isWhitespace s _
      (List.rdropWhile_prefix _ _)
  rw [h1, List.rdropWhile_idempotent]

/-! ### The assignment loop -/

/-- Inserting one pair adds exactly its text to the multiset of variants. -/
theorem insertPrompt_variants_perm (thr : ℚ) (t : Str) (k : Nat) (cs : List PromptCluster) :
    ((insertPrompt thr t k cs).flatMap PromptCluster.variants).Perm
      (cs.flatMap PromptCluster.variants ++ [t]) := by
  induction cs with
  | nil => simp [insertPrompt]
  | cons c cs ih =>
    rw [insertPrompt]
    by_cases h : isSimilar thr t c.canonical
    · simp only [if_pos h, List.flatMap_cons]
      simp only [List.append_assoc]
      exact List.Perm.append_left c.variants List.perm_append_comm
    · simp only [if_neg h, List.flatMap_cons, List.append_assoc]
      exact List.Perm.append_left c.variants ih

/-- Over the whole loop, the multiset of variants is exactly the multiset
of keys, together with whatever the accumulator already held. -/
theorem foldl_insert_variants_perm (thr : ℚ) (items : List (Str × Nat))
    (acc : List PromptCluster) :
    ((items.foldl (fun cs p => insertPrompt thr p.1 p.2 cs) acc).flatMap
        PromptCluster.variants).Perm
      (acc.flatMap PromptCluster.variants ++ items.map Prod.fst) := by
  induction items generalizing acc with
  | nil => simp
  | cons p ps ih =>
    simp only [List.foldl_cons, List.map_cons]
    refine (ih (insertPrompt thr p.1 p.2 acc)).trans ?_
    refine (List.Perm.append_right _ (insertPrompt_variants_perm thr p.1 p.2 acc)).trans ?_
    simp [List.append_assoc]

theorem assignAll_variants_perm (thr : ℚ) (items : List (Str × Nat)) :
    ((assignAll thr items).flatMap PromptCluster.variants).Perm (items.map Prod.fst) := by
  simpa [assignAll] using foldl_insert_variants_perm thr items []

/-- Inserting one pair preserves the count invariant, provided the pair
carries the count `f` assigns to its text. -/
theorem insertPrompt_count (thr : ℚ) (t : Str) (k : Nat) (cs : List PromptCluster)
    (f : Str → Nat) (hk : k = f t)
    (h : ∀ c ∈ cs, c.count = (c.variants.map f).sum) :
    ∀ c ∈ insertPrompt thr t k cs, c.count = (c.variants.map f).sum := by
  induction cs with
  | nil =>
    intro c hc
    simp only [insertPrompt, List.mem_singleton] at hc
    subst hc
    simp [hk]
  | cons c0 cs ih =>
    intro c hc
    rw [insertPrompt] at hc
    by_cases hs : isSimilar thr t c0.canonical
    · rw [if_pos hs] at hc
      rcases List.mem_cons.mp hc with h1 | h1
      · subst h1
        have h0 := h c0 (List.mem_cons_self c0 cs)
        simp [h0, hk]
      · exact h c (List.mem_cons_of_mem c0 h1)
    · rw [if_neg hs] at hc
      rcases List.mem_cons.mp hc with h1 | h1
      · subst h1
        exact h c (List.mem_cons_self c cs)
      · exact ih (fun c hc => h c (List.mem_cons_of_mem c0 hc)) c h1

/-- The count invariant over the whole loop. -/
theorem foldl_insert_count (thr : ℚ) (f : Str → Nat) :
    ∀ (items : List (Str × Nat)), (∀ p ∈ items, p.2 = f p.1) →
    ∀ (acc : List PromptCluster), (∀ c ∈ acc, c.count = (c.variants.map f).sum) →
    ∀ c ∈ items.foldl (fun cs p => insertPrompt thr p.1 p.2 cs) acc,
      c.count = (c.variants.map f).sum := by
  intro items
  induction items with
  | nil =>
    intro _ acc hacc c hc
    simpa using hacc c hc
  | cons p ps ih =>
    intro hitems acc hacc c hc
    simp only [List.foldl_cons] at hc
    refine ih (fun q hq => hitems q (List.mem_cons_of_mem p hq))
      (insertPrompt thr p.1 p.2 acc) ?_ c hc
    exact insertPrompt_count thr p.1 p.2 acc f
      (hitems p (List.mem_cons_self p ps)) hacc

/-- Every variant of a cluster either is the canonical or was found
similar to it when assigned. -/
theorem insertPrompt_canonical_sim (thr : ℚ) (t : Str) (k : Nat) (cs : List PromptCluster)
    (h : ∀ c ∈ cs, ∀ v ∈ c.variants,
      v = c.canonical ∨ isSimilar thr v c.canonical = true) :
    ∀ c ∈ insertPrompt thr t k cs, ∀ v ∈ c.variants,
      v = c.canonical ∨ isSimilar thr v c.canonical = true := by
  induction cs with
  | nil =>
    intro c hc v hv
    simp only [insertPrompt, List.mem_singleton] at hc
    subst hc
    simp only [List.mem_singleton] at hv
    exact Or.inl hv
  | cons c0 cs ih =>
    intro c hc v hv
    rw [insertPrompt] at hc
    by_cases hs : isSimilar thr t c0.canonical
    · rw [if_pos hs] at hc
      rcases List.mem_cons.mp hc with h1 | h1
      · subst h1
        simp only [List.mem_append, List.mem_singleton] at hv
        rcases hv with hv | hv
        · exact h c0 (List.mem_cons_self c0 cs) v hv
        · subst hv
          exact Or.inr hs
      · exact h c (List.mem_cons_of_mem c0 h1) v hv
    · rw [if_neg hs] at hc
      rcases List.mem_cons.mp hc with h1 | h1
      · subst h1
        exact h c (List.mem_cons_self c cs) v hv
      · exact ih (fun c hc => h c (List.mem_cons_of_mem c0 hc)) c h1 v hv

/-- The canonical-similarity invariant for the whole loop. -/
theorem foldl_insert_canonical_sim (thr : ℚ) :
    ∀ (items : List (Str × Nat)) (acc : List PromptCluster),
    (∀ c ∈ acc, ∀ v ∈ c.variants,
      v = c.canonical ∨ isSimilar thr v c.canonical = true) →
    ∀ c ∈ items.foldl (fun cs p => insertPrompt thr p.1 p.2 cs) acc,
      ∀ v ∈ c.variants, v = c.canonical ∨ isSimilar thr v c.canonical = true := by
  intro items
  induction items with
  | nil =>
    intro acc hacc c hc
    simpa using hacc c hc
  | cons p ps ih =>
    intro acc hacc c hc
    simp only [List.foldl_cons] at hc
    exact ih (insertPrompt thr p.1 p.2 acc)
      (insertPrompt_canonical_sim thr p.1 p.2 acc hacc) c hc

/-! ### The two sorts of `cluster` -/

theorem itemLe_trans (a b c : Str × Nat) :
    itemLe a b → itemLe b c → itemLe a c := by
  simp only [itemLe, decide_eq_true_eq]
  omega

theorem itemLe_total (a b : Str × Nat) : itemLe a b || itemLe b a := by
  simp only [itemLe, Bool.or_eq_true, decide_eq_true_eq]
  omega

theorem clusterLe_trans (a b c : PromptCluster) :
    clusterLe a b → clusterLe b c → clusterLe a c := by
  simp only [clusterLe, decide_eq_true_eq]
  omega

theorem clusterLe_total (a b : PromptCluster) : clusterLe a b || clusterLe b a := by
  simp only [clusterLe, Bool.or_eq_true, decide_eq_true_eq]
  omega

theorem mem_clusterFrom_iff (thr : ℚ) (items : List (Str × Nat)) (c : PromptCluster) :
    c ∈ clusterFrom thr items ↔ c ∈ assignAll thr (sortItems items) :=
  (List.mergeSort_perm (assignAll thr (sortItems items)) clusterLe).mem_iff

theorem mem_sortItems_iff (items : List (Str × Nat)) (p : Str × Nat) :
    p ∈ sortItems items ↔ p ∈ items :=
  (List.mergeSort_perm items itemLe).mem_iff

/-- The multiset of variants of the final output is the multiset of keys
of any valid enumeration, hence the distinct kept texts of the input. -/
theorem clusterFrom_variants_perm (thr : ℚ) (prompts : List Str)
    (items : List (Str × Nat)) (hv : validItems prompts items) :
    ((clusterFrom thr items).flatMap PromptCluster.variants).Perm
      (keptTexts prompts).dedup := by
  refine (((List.mergeSort_perm (assignAll thr (sortItems items)) clusterLe).flatMap_right
    PromptCluster.variants).trans (assignAll_variants_perm thr (sortItems items))).trans ?_
  refine (List.Perm.map Prod.fst (List.mergeSort_perm items itemLe)).trans ?_
  exact hv.1

/-- Evaluation lemma: when the pairs are already ranked and the assigned
clusters already ordered, `clusterFrom` is the assignment loop itself. -/
theorem clusterFrom_eq_of_sorted {thr : ℚ} {items : List (Str × Nat)}
    {L : List PromptCluster}
    (hi : items.Pairwise (fun p q => itemLe p q = true))
    (ha : assignAll thr items = L)
    (hc : L.Pairwise (fun a b => clusterLe a b = true)) :
    clusterFrom thr items = L := by
  rw [clusterFrom, sortItems, List.mergeSort_of_sorted hi, ha, sortClusters,
    List.mergeSort_of_sorted hc]

/-! ### The claims -/

/-- Claim C1 (code bug): on the scenario input with default threshold
`0.8`, the cluster whose canonical is `"continue"` cannot contain
`"cotninue"`: `normalized_levenshtein("continue", "cotninue") = 0.75`,
which is below the `0.8` threshold, so `is_similar` rejects the pair
(contradicting the module's own test `test_similar_prompts`), and a
variant only ever enters a cluster when it equals the canonical or is
similar to it.  The two conjuncts: the failing similarity test, and the
consequence for every enumeration of the occurrence map. -/
theorem claim_C1_cotninue_not_absorbed :
    isSimilar defaultThreshold (str "cotninue") (str "continue") = false ∧
    ∀ (items : List (Str × Nat)) (c : PromptCluster),
      c ∈ clusterFrom defaultThreshold items → c.canonical = str "continue" →
      str "cotninue" ∉ c.variants := by
  constructor
  · decide
  · intro items c hc hcan hv
    have hinv := foldl_insert_canonical_sim defaultThreshold (sortItems items) []
      (by simp) c ((mem_clusterFrom_iff defaultThreshold items c).mp hc)
      (str "cotninue") hv
    rw [hcan] at hinv
    rcases hinv with h | h
    · exact absurd h (by decide)
    · exact absurd h (by decide)

/-- Witness for claim C1 at the first-seen enumeration of the scenario
input: the `"continue"` cluster of the computed output does not list
`"cotninue"`. -/
theorem claim_C1_witness :
    isSimilar defaultThreshold (str "cotninue") (str "continue") = false ∧
    str "cotninue" ∉ contCluster.variants := by
  have hcf : clusterFrom defaultThreshold scenarioItems =
      [contCluster, cotnCluster, fixItCluster, fixThisCluster] :=
    clusterFrom_eq_of_sorted (by decide) (by decide) (by decide)
  refine ⟨claim_C1_cotninue_not_absorbed.1,
    claim_C1_cotninue_not_absorbed.2 scenarioItems contCluster ?_ rfl⟩
  rw [hcf]
  decide

/-- Claim C2 (code bug): the output of `cluster` depends on the
enumeration order of the occurrence map.  Both `tieItemsA` and
`tieItemsB` are valid enumerations of the map built from
`["fix it", "fix this"]` (Rust's `HashMap` iteration order is randomly
seeded, so different runs can produce either), yet they yield different
cluster lists, so two runs need not produce identical output. -/
theorem claim_C2_order_dependent :
    validItems tiePrompts tieItemsA ∧ validItems tiePrompts tieItemsB ∧
    clusterFrom defaultThreshold tieItemsA ≠ clusterFrom defaultThreshold tieItemsB := by
  refine ⟨by decide, by decide, ?_⟩
  have hA : clusterFrom defaultThreshold tieItemsA = [fixItCluster, fixThisCluster] :=
    clusterFrom_eq_of_sorted (by decide) (by decide) (by decide)
  have hB : clusterFrom defaultThreshold tieItemsB = [fixThisCluster, fixItCluster] :=
    clusterFrom_eq_of_sorted (by decide) (by decide) (by decide)
  rw [hA, hB]
  decide

/-- Claim C3: partition property.  For every input and every valid
enumeration of its occurrence map, the concatenation of the variants of
all output clusters is a permutation of the duplicate-free list of
non-discarded normalized texts: each such text appears in exactly one
cluster, none is dropped, none is duplicated. -/
theorem claim_C3_partition (thr : ℚ) (prompts : List Str) (items : List (Str × Nat))
    (hv : validItems prompts items) :
    ((clusterFrom thr items).flatMap PromptCluster.variants).Perm
      (keptTexts prompts).dedup :=
  clusterFrom_variants_perm thr prompts items hv

/-- Witness for claim C3 at the scenario input. -/
theorem claim_C3_witness :
    ((clusterFrom defaultThreshold scenarioItems).flatMap PromptCluster.variants).Perm
      (keptTexts scenarioPrompts).dedup :=
  claim_C3_partition defaultThreshold scenarioPrompts scenarioItems (by decide)

/-- Claim C4: count conservation.  Every output cluster's `count` is the
sum, over its variants, of that text's occurrence count in the input
batch. -/
theorem claim_C4_count_conservation (thr : ℚ) (prompts : List Str)
    (items : List (Str × Nat)) (hv : validItems prompts items) :
    ∀ c ∈ clusterFrom thr items, c.count = (c.variants.map (occ prompts)).sum := by
  intro c hc
  refine foldl_insert_count thr (occ prompts) (sortItems items) ?_ [] (by simp) c
    ((mem_clusterFrom_iff thr items c).mp hc)
  intro p hp
  exact hv.2 p ((mem_sortItems_iff items p).mp hp)

/-- Witness for claim C4: the `"continue"` cluster of the scenario run
has count `3 = 2 + 1`. -/
theorem claim_C4_witness :
    contCluster.count = (contCluster.variants.map (occ scenarioPrompts)).sum := by
  have hcf : clusterFrom defaultThreshold scenarioItems =
      [contCluster, cotnCluster, fixItCluster, fixThisCluster] :=
    clusterFrom_eq_of_sorted (by decide) (by decide) (by decide)
  refine claim_C4_count_conservation defaultThreshold scenarioPrompts scenarioItems
    (by decide) contCluster ?_
  rw [hcf]
  decide

/-- Claim C5: length-ratio short-circuit.  Whenever the byte-length
ratio `min(len a, len b) / max(len a, len b)` is below `0.5` (the ratio
is meaningful, i.e. not `0/0`), `is_similar` returns `false` for every
threshold. -/
theorem claim_C5_length_ratio (thr : ℚ) (a b : Str)
    (hpos : 0 < max (utf8Len a) (utf8Len b))
    (h : (min (utf8Len a) (utf8Len b) : ℚ) / (max (utf8Len a) (utf8Len b) : ℚ) < 1 / 2) :
    isSimilar thr a b = false := by
  have hne : a ≠ b := by
    intro he
    subst he
    rw [min_self, max_self] at h
    rw [max_self] at hpos
    have hz : utf8Len a ≠ 0 := by omega
    rw [div_self (by exact_mod_cast hz)] at h
    norm_num at h
  have hlt : lenRatio a b < Rat.divInt 1 2 := by
    rw [lenRatio_def]
    have h12 : Rat.divInt 1 2 = (1 : ℚ) / 2 := by
      rw [Rat.divInt_eq_div]
      norm_num
    rw [h12]
    exact h
  rw [isSimilar, if_neg hne, if_pos hlt]

/-- Witness for claim C5: `"continue"` (8 bytes) and `"hey"` (3 bytes)
have ratio `3/8 < 1/2`, and `is_similar` is `false`. -/
theorem claim_C5_witness :
    isSimilar defaultThreshold (str "continue") (str "hey") = false :=
  claim_C5_length_ratio defaultThreshold (str "continue") (str "hey") (by decide)
    (by rw [(by decide : utf8Len (str "continue") = 8),
          (by decide : utf8Len (str "hey") = 3)]
        norm_num)

/-- Claim C6: threshold monotonicity.  For fixed strings, lowering the
threshold never turns a similar pair dissimilar. -/
theorem claim_C6_threshold_monotone (t₁ t₂ : ℚ) (a b : Str) (hlt : t₂ < t₁)
    (h : isSimilar t₁ a b = true) : isSimilar t₂ a b = true := by
  by_cases heq : a = b
  · rw [isSimilar, if_pos heq]
  · rw [isSimilar, if_neg heq] at h ⊢
    by_cases hr : lenRatio a b < Rat.divInt 1 2
    · rw [if_pos hr] at h
      exact absurd h (by simp)
    · rw [if_neg hr] at h ⊢
      simp only [decide_eq_true_eq, ge_iff_le] at h ⊢
      exact le_trans hlt.le h

/-- Witness for claim C6: `"continue"` and `"contnue"` are similar at
`0.8`, hence also at the lower threshold `0.5`. -/
theorem claim_C6_witness :
    isSimilar (Rat.divInt 1 2) (str "continue") (str "contnue") = true :=
  claim_C6_threshold_monotone defaultThreshold (Rat.divInt 1 2)
    (str "continue") (str "contnue") (by decide) (by decide)

/-- Claim C7 counterexample: on an all-whitespace input, `normalize`
returns the empty discard sentinel although the trimmed, lower-cased
text matches no substring marker and no prefix marker — so the sentinel
is returned not exactly when the noise condition holds. -/
theorem claim_C7_counterexample :
    normalize (str " ") = [] ∧ ¬ noiseMatch (lower (trim (str " "))) :=
  ⟨by decide, by decide⟩

/-- Claim C7 (amended): `normalize` trims and lower-cases (a kept result
is exactly the trimmed, lower-cased input), and it returns the empty
sentinel exactly when the trimmed, lower-cased text matches the fixed
marker table or is itself empty; in particular the five listed noisy
inputs all map to the sentinel. -/
theorem claim_C7_amended :
    (∀ s : Str,
      (normalize s = [] ↔ noiseMatch (lower (trim s)) ∨ lower (trim s) = []) ∧
      (normalize s = [] ∨ normalize s = lower (trim s))) ∧
    normalize importInput = [] ∧
    normalize (str "// a comment") = [] ∧
    normalize (str "```code block```") = [] ∧
    normalize (str "<div>html</div>") = [] ∧
    normalize (str "[1,2,3]") = [] := by
  refine ⟨fun s => ⟨?_, ?_⟩, by decide, by decide, by decide, by decide, by decide⟩
  · by_cases h : noisy (lower (trim s))
    · simp only [normalize, if_pos h]
      exact iff_of_true (by trivial) (Or.inl ((noisy_iff _).mp h))
    · simp only [normalize, if_neg h]
      constructor
      · intro he
        exact Or.inr he
      · rintro (hn | he)
        · exact absurd ((noisy_iff _).mpr hn) h
        · exact he
  · by_cases h : noisy (lower (trim s))
    · simp [normalize, h]
    · simp [normalize, h]

/-- Witness for claim C7 at a kept input with surrounding whitespace and
upper-case letters. -/
theorem claim_C7_witness :
    normalize (str " Fix Bug ") = [] ∨
    normalize (str " Fix Bug ") = lower (trim (str " Fix Bug ")) :=
  (claim_C7_amended.1 (str " Fix Bug ")).2

/-- Claim C8 counterexample: the length floor of the source is measured
in UTF-8 bytes, not characters.  The two-character text `"éé"` has four
bytes, so it is kept and appears in a cluster's variants although its
character length is `2 ≤ 3`.  (The stated `validItems` fact shows the
chosen enumeration is the only valid one for this input.) -/
theorem claim_C8_counterexample :
    validItems [accentText] [(accentText, 1)] ∧
    clusterFrom defaultThreshold [(accentText, 1)] =
      [{ canonical := accentText, variants := [accentText], count := 1 }] ∧
    accentText.length ≤ 3 := by
  refine ⟨by decide, ?_, by decide⟩
  exact clusterFrom_eq_of_sorted (by decide) (by decide) (by decide)

/-- Claim C8 (amended): `cluster` discards exactly the prompts whose
normalized form is the sentinel or has UTF-8 byte length `≤ 3`, so every
variant of every output cluster has byte length `> 3` (texts of at most
three characters but more than three bytes can still appear); the input
`["ab", "import x", ""]` yields the empty cluster list under every
enumeration of its (empty) occurrence map. -/
theorem claim_C8_amended :
    (∀ (thr : ℚ) (prompts : List Str) (items : List (Str × Nat)),
      validItems prompts items →
      ∀ c ∈ clusterFrom thr items, ∀ v ∈ c.variants, 3 < utf8Len v) ∧
    (∀ items : List (Str × Nat), validItems shortPrompts items →
      clusterFrom defaultThreshold items = []) := by
  constructor
  · intro thr prompts items hv c hc v hvv
    have hmem : v ∈ (clusterFrom thr items).flatMap PromptCluster.variants :=
      List.mem_flatMap.mpr ⟨c, hc, hvv⟩
    have h1 : v ∈ (keptTexts prompts).dedup :=
      (clusterFrom_variants_perm thr prompts items hv).mem_iff.mp hmem
    have h2 : v ∈ keptTexts prompts := List.mem_dedup.mp h1
    have h3 := List.of_mem_filter h2
    simp only [kept, Bool.and_eq_true, decide_eq_true_eq] at h3
    exact h3.2
  · intro items hv
    have h0 : (keptTexts shortPrompts).dedup = [] := by decide
    have h1 : items.map Prod.fst = [] := (h0 ▸ hv.1).eq_nil
    have h2 : items = [] := List.map_eq_nil_iff.mp h1
    rw [h2]
    simp [clusterFrom, sortItems, sortClusters, assignAll]

/-- Witness for claim C8: the variant `"fix it"` of the computed run on
`tiePrompts` has byte length above the floor. -/
theorem claim_C8_witness : 3 < utf8Len (str "fix it") := by
  have hA : clusterFrom defaultThreshold tieItemsA = [fixItCluster, fixThisCluster] :=
    clusterFrom_eq_of_sorted (by decide) (by decide) (by decide)
  refine claim_C8_amended.1 defaultThreshold tiePrompts tieItemsA (by decide)
    fixItCluster ?_ (str "fix it") (by decide)
  rw [hA]
  decide

/-- Claim C9: the returned cluster list is non-increasing in `count`,
and the final sort is stable: two clusters in creation order (the order
of the assignment loop's output) with equal counts keep their relative
order in the returned list. -/
theorem claim_C9_sorted_stable (thr : ℚ) (items : List (Str × Nat)) :
    (clusterFrom thr items).Pairwise (fun a b => b.count ≤ a.count) ∧
    ∀ c₁ c₂ : PromptCluster,
      [c₁, c₂].Sublist (assignAll thr (sortItems items)) → c₁.count = c₂.count →
      [c₁, c₂].Sublist (clusterFrom thr items) := by
  constructor
  · have h := List.sorted_mergeSort clusterLe_trans clusterLe_total
      (assignAll thr (sortItems items))
    exact h.imp (fun hab => by simpa [clusterLe] using hab)
  · intro c₁ c₂ hsub heq
    refine List.sublist_mergeSort clusterLe_trans clusterLe_total ?_ hsub
    refine List.pairwise_cons.mpr ⟨?_, List.pairwise_singleton _ _⟩
    intro c hc
    simp only [List.mem_singleton] at hc
    subst hc
    simp [clusterLe, heq]

/-- Witness for claim C9: the two equal-count clusters of the tie input
keep their creation order in the returned list. -/
theorem claim_C9_witness :
    [fixItCluster, fixThisCluster].Sublist (clusterFrom defaultThreshold tieItemsA) := by
  have hs : sortItems tieItemsA = tieItemsA := List.mergeSort_of_sorted (by decide)
  have ha : assignAll defaultThreshold tieItemsA = [fixItCluster, fixThisCluster] := by
    decide
  refine (claim_C9_sorted_stable defaultThreshold tieItemsA).2 fixItCluster
    fixThisCluster ?_ rfl
  rw [hs, ha]

/-- Claim C10: `normalize` is idempotent — a kept output is already
trimmed, lower-cased and free of noise markers, and the sentinel
normalizes to itself. -/
theorem claim_C10_normalize_idem :
    (∀ s : Str, normalize (normalize s) = normalize s) ∧ normalize [] = [] := by
  constructor
  · intro s
    by_cases h : noisy (lower (trim s))
    · have h1 : normalize s = [] := by simp [normalize, h]
      rw [h1]
      decide
    · have h1 : normalize s = lower (trim s) := by simp [normalize, h]
      rw [h1]
      show (if noisy (lower (trim (lower (trim s)))) then ([] : Str)
        else lower (trim (lower (trim s)))) = lower (trim s)
      simp only [trim_lower, trim_idem, lower_idem]
      simp [h]
  · decide

end Ccql
